import Mathlib

/-!
Verification development for the RustScale tiled super-resolution core
(`src-tauri/src`).  The Rust sources are shallowly embedded: pure functions
become Lean functions, the producer/consumer tiling pipeline becomes an
explicit sequential fold (the stream is single-producer/single-consumer and
order-preserving, so its observable behaviour is sequential), machine
integers become `Nat`/`Int` with explicit `% 2^32` where u32 wrap-around
matters, and fallible Rust functions return `Except AppError`.
-/

namespace RustScale

/-- Error type mirroring `error.rs` (`enum AppError`).  The Rust enum has
exactly these eight variants, each carrying a `String`. -/
inductive AppError where
  | IoError (msg : String)
  | OrtError (msg : String)
  | ImageError (msg : String)
  | VramError (msg : String)
  | ModelLoadError (msg : String)
  | ImageLoadError (msg : String)
  | InferenceError (msg : String)
  | Unknown (msg : String)
deriving DecidableEq, Repr

/-- The `Display` rendering of `AppError` as generated by the `#[error(...)]` attributes
in `error.rs` (used by `e.to_string()` in `engine/mod.rs`). -/
def AppError.toMessage : AppError → String
  | .IoError s => "IO Error: " ++ s
  | .OrtError s => "ONNX Runtime Error: " ++ s
  | .ImageError s => "Image Processing Error: " ++ s
  | .VramError s => "VRAM Error: " ++ s
  | .ModelLoadError s => "Model Load Error: " ++ s
  | .ImageLoadError s => "Image Load Error: " ++ s
  | .InferenceError s => "Inference Error: " ++ s
  | .Unknown s => "Unknown Error: " ++ s

/-- An RGB8 pixel (`image::Rgb<u8>`); channel values live in 0..255 but the
claims never depend on the range, so plain naturals suffice. -/
abbrev Rgb := ℕ × ℕ × ℕ

/-- An in-memory RGB image (`image::DynamicImage` restricted to RGB8, which
is the only variant the pipeline produces).  Pixels are a total function;
all in-range accesses of the Rust code are modelled by applying `pix`. -/
structure Image where
  width : ℕ
  height : ℕ
  pix : ℕ → ℕ → Rgb

/-- Structure `TilingConfig` from `image_processing.rs`. -/
structure TilingConfig where
  tile_size : ℕ
  padding : ℕ
  batch_size : ℕ
deriving DecidableEq, Repr

/-- Structure `TileMetadata` from `image_processing.rs`. -/
structure TileMetadata where
  x_index : ℕ
  y_index : ℕ
  content_width : ℕ
  content_height : ℕ
deriving DecidableEq, Repr

/-! ### Mirror coordinates (`image_processing.rs`, `mirror_coordinate`) -/

/-- First loop of `mirror_coordinate`: `while c < 0 { c = -c; }`. -/
def reflect_low (c : ℤ) : ℤ :=
  if c < 0 then reflect_low (-c) else c
termination_by (if c < 0 then 1 else 0)
decreasing_by
  simp only [if_pos (by assumption : c < 0)]
  have : ¬ (-c < 0) := by omega
  simp [this]

/-- Second loop of `mirror_coordinate`:
`while c >= max { c = 2 * (max - 1) - c; }`. -/
def reflect_high (mx : ℤ) (c : ℤ) : ℤ :=
  if mx ≤ c then reflect_high mx (2 * (mx - 1) - c) else c
termination_by (c - mx + 1).toNat
decreasing_by
  have h : mx ≤ c := by assumption
  omega

/-- One-step unfolding of `reflect_low`: the loop body runs at most once,
since `-c > 0` whenever `c < 0`. -/
theorem reflect_low_eq (c : ℤ) : reflect_low c = if c < 0 then -c else c := by
  rw [reflect_low]
  by_cases h : c < 0
  · simp only [if_pos h]
    rw [reflect_low]
    have : ¬ (-c < 0) := by omega
    simp [this]
  · simp [h]

/-- One-step unfolding of `reflect_high`: when `mx ≤ c`, the reflected value
`2*(mx-1) - c ≤ mx - 2 < mx`, so the loop body runs at most once. -/
theorem reflect_high_eq (mx c : ℤ) :
    reflect_high mx c = if mx ≤ c then 2 * (mx - 1) - c else c := by
  rw [reflect_high]
  by_cases h : mx ≤ c
  · simp only [if_pos h]
    rw [reflect_high]
    have : ¬ (mx ≤ 2 * (mx - 1) - c) := by omega
    simp [this]
  · simp [h]

/-- Function `mirror_coordinate` from `image_processing.rs`: reflect the lower bound,
reflect the upper bound, then `c.clamp(0, max - 1) as u32`. -/
def mirror_coordinate (coord : ℤ) (mx : ℤ) : ℕ :=
  (min (mx - 1) (max 0 (reflect_high mx (reflect_low coord)))).toNat

/-- The ping-pong reflection described by the spec: index `i < 0` reflects as
`-i`, index `i ≥ max` reflects as `2(max-1) - i`, applied iteratively until
the index lies in `[0, max)`.  Written in the closed form
`|i| mod 2(max-1)`, reflected once; the lemmas `pingpong_neg`,
`pingpong_high` and `pingpong_in_range` below show this closed form
satisfies exactly the spec's iterative equations. -/
def pingpong (mx : ℕ) (i : ℤ) : ℕ :=
  if mx ≤ 1 then 0
  else
    let r := i.natAbs % (2 * (mx - 1))
    if r < mx then r else 2 * (mx - 1) - r

/-- Ping-pong equation for negative indices: `i < 0` reflects as `-i`. -/
theorem pingpong_neg (mx : ℕ) (i : ℤ) (h : i < 0) :
    pingpong mx i = pingpong mx (-i) := by
  simp [pingpong]

/-- Ping-pong equation for in-range indices: the reflection is the identity
on `[0, max)`. -/
theorem pingpong_in_range (mx : ℕ) (i : ℤ) (h0 : 0 ≤ i) (h1 : i < mx) :
    pingpong mx i = i.toNat := by
  unfold pingpong
  by_cases hm : mx ≤ 1
  · simp [hm]; omega
  · have hper : 0 < 2 * (mx - 1) := by omega
    have habs : i.natAbs < 2 * (mx - 1) ∨ i.natAbs < mx := by omega
    have hlt : i.natAbs < mx := by omega
    by_cases hcase : i.natAbs < 2 * (mx - 1)
    · simp only [if_neg hm]
      rw [Nat.mod_eq_of_lt hcase]
      simp [hlt]
      omega
    · -- then i.natAbs = 2*(mx-1) is forced (i < mx ≤ 2(mx-1)+1)
      have heq : i.natAbs = 2 * (mx - 1) := by omega
      simp only [if_neg hm, heq, Nat.mod_self]
      have : 0 < mx := by omega
      simp [this]
      omega

/-- Ping-pong equation for indices past the end: `i ≥ max` reflects as
`2(max-1) - i`. -/
theorem pingpong_high (mx : ℕ) (i : ℤ) (h : (mx : ℤ) ≤ i) (h1 : 1 ≤ mx) :
    pingpong mx i = pingpong mx (2 * ((mx : ℤ) - 1) - i) := by
  unfold pingpong
  by_cases hm : mx ≤ 1
  · simp [hm]
  · simp only [if_neg hm]
    set p : ℕ := 2 * (mx - 1) with hp
    have hm2 : 2 ≤ mx := by omega
    have hper : 0 < p := by omega
    have hi0 : (0 : ℤ) ≤ i := by omega
    have habs : i.natAbs = i.toNat := by omega
    rcases le_or_lt i (p : ℤ) with hle | hgt
    · -- mx ≤ i ≤ p : reflected value is p - i ∈ [0, mx-2], already in range
      have hj : (2 * ((mx : ℤ) - 1) - i).natAbs = p - i.toNat := by omega
      rcases lt_or_eq_of_le (show i.toNat ≤ p by omega) with hlt | heq
      · have r1 : i.natAbs % p = i.toNat := by
          rw [habs, Nat.mod_eq_of_lt hlt]
        have r2 : (2 * ((mx : ℤ) - 1) - i).natAbs % p = p - i.toNat := by
          rw [hj, Nat.mod_eq_of_lt (by omega)]
        rw [r1, r2]
        have c1 : ¬ (i.toNat < mx) := by omega
        have c2 : p - i.toNat < mx := by omega
        simp only [if_neg c1, if_pos c2]
      · have r1 : i.natAbs % p = 0 := by rw [habs, heq, Nat.mod_self]
        have r2 : (2 * ((mx : ℤ) - 1) - i).natAbs % p = 0 := by
          rw [hj, show p - i.toNat = 0 by omega, Nat.zero_mod]
        rw [r1, r2]
    · -- i > p : both sides reduce mod p to the same residue
      have hj : (2 * ((mx : ℤ) - 1) - i).natAbs = i.toNat - p := by omega
      rw [habs, hj, Nat.mod_eq_sub_mod (by omega)]

/-- Closed form of `mirror_coordinate`: each of the two reflection loops
executes its body at most once, after which the result is clamped. -/
theorem mirror_coordinate_eq (coord mx : ℤ) :
    mirror_coordinate coord mx =
      (min (mx - 1) (max 0
        (if mx ≤ (if coord < 0 then -coord else coord)
         then 2 * (mx - 1) - (if coord < 0 then -coord else coord)
         else (if coord < 0 then -coord else coord)))).toNat := by
  unfold mirror_coordinate
  rw [reflect_low_eq, reflect_high_eq]

/-- Where the code agrees with the spec's ping-pong reflection: for any
coordinate within one reflection period (`|c| ≤ 2(w-1)`), the clamped
single reflection of `mirror_coordinate` coincides with the iterative
ping-pong reflection. -/
theorem mirror_eq_pingpong (w : ℕ) (c : ℤ) (hw : 1 ≤ w)
    (hc : c.natAbs ≤ 2 * (w - 1)) :
    mirror_coordinate c (w : ℤ) = pingpong w c := by
  rw [mirror_coordinate_eq]
  set a : ℤ := if c < 0 then -c else c with ha
  have ha0 : 0 ≤ a := by simp only [ha]; split <;> omega
  have haabs : a.natAbs = c.natAbs := by simp only [ha]; split <;> omega
  rcases Nat.lt_or_ge w 2 with hw1 | hw2
  · -- w = 1 : |c| ≤ 0 forces c = 0; both sides are 0
    have hweq : w = 1 := by omega
    subst hweq
    have hc0 : c = 0 := by omega
    subst hc0
    simp [pingpong, ha]
  · unfold pingpong
    simp only [if_neg (by omega : ¬ w ≤ 1)]
    set p : ℕ := 2 * (w - 1) with hp
    have hper : w ≤ p := by omega
    by_cases hin : a < (w : ℤ)
    · -- single in-range case: both sides are |c|
      have h1 : ¬ ((w : ℤ) ≤ a) := by omega
      simp only [if_neg h1]
      have hmod : c.natAbs % p = c.natAbs :=
        Nat.mod_eq_of_lt (by omega)
      rw [hmod]
      have h2 : c.natAbs < w := by omega
      simp only [if_pos h2]
      omega
    · -- one reflection: code yields 2(w-1) - |c|, in [0, w-2]
      have h1 : (w : ℤ) ≤ a := by omega
      simp only [if_pos h1]
      rcases lt_or_eq_of_le (show c.natAbs ≤ p from hc) with hlt | heq
      · have hmod : c.natAbs % p = c.natAbs := Nat.mod_eq_of_lt hlt
        rw [hmod]
        have h2 : ¬ (c.natAbs < w) := by omega
        simp only [if_neg h2]
        omega
      · rw [heq, Nat.mod_self]
        simp only [if_pos (by omega : 0 < w)]
        omega

/-! ### Tile extraction (`image_processing.rs`, `extract_tile_with_mirroring`) -/

/-- Function `extract_tile_with_mirroring`: builds a `(target_w + 2p) × (target_h + 2p)`
tile whose pixel at `(tile_x, tile_y)` is the source pixel at the mirrored
ideal coordinates `(x_start + tile_x - padding, y_start + tile_y - padding)`. -/
def extract_tile_with_mirroring (img : Image)
    (x_start y_start target_w target_h padding : ℕ) : Image :=
  { width := target_w + 2 * padding,
    height := target_h + 2 * padding,
    pix := fun tile_x tile_y =>
      img.pix
        (mirror_coordinate ((x_start : ℤ) + (tile_x : ℤ) - (padding : ℤ)) (img.width : ℤ))
        (mirror_coordinate ((y_start : ℤ) + (tile_y : ℤ) - (padding : ℤ)) (img.height : ℤ)) }

/-! ### Stitching (`image_processing.rs`, `stitch_tile`) -/

/-- Function `stitch_tile`: crop the upscaled tile at `(padding*scale, padding*scale)`
with size `(content_width*scale, content_height*scale)` and copy it into the
output at `(x_index*tile_size*scale, y_index*tile_size*scale)`, truncating
rows/columns that would run past the output (`saturating_sub` bounds).
Always returns `Ok` in the source, so it is a plain function here. -/
def stitch_tile (out : Image) (upscaled_tile : Image) (meta : TileMetadata)
    (scale padding tile_size : ℕ) : Image :=
  let crop_x := padding * scale
  let crop_y := padding * scale
  let crop_w := meta.content_width * scale
  let crop_h := meta.content_height * scale
  let out_x := meta.x_index * tile_size * scale
  let out_y := meta.y_index * tile_size * scale
  let rows_to_copy := min crop_h (out.height - out_y)
  let cols_to_copy := min crop_w (out.width - out_x)
  { out with pix := fun x y =>
      if out_x ≤ x ∧ x < out_x + cols_to_copy ∧ out_y ≤ y ∧ y < out_y + rows_to_copy
      then upscaled_tile.pix (crop_x + (x - out_x)) (crop_y + (y - out_y))
      else out.pix x y }

/-! ### The tiled pipeline (`image_processing.rs`, `process_tiled`)

The Rust pipeline runs one producer thread and one consumer thread joined by
an order-preserving bounded channel; its observable result is the sequential
composition modelled here.  Cancellation and progress reporting are not
modelled (they do not affect any claim).  `available_memory` is passed in as
the raw number returned by sysinfo. -/

/-- Grid extent: `(width as f32 / tile_size as f32).ceil() as u32`.  The f32
computation is exact for all image dimensions and tile sizes below `2^24`
(any integer ratio boundary would need `width > 2^24` to be crossed by
rounding), so it is modelled as exact ceiling division on naturals. -/
def tiles_count (extent tile_size : ℕ) : ℕ := (extent + tile_size - 1) / tile_size

/-- The producer's per-tile metadata, in raster order (`for y { for x }`). -/
def tile_metas (width height tile_size : ℕ) : List TileMetadata :=
  (List.range (tiles_count height tile_size)).flatMap (fun y =>
    (List.range (tiles_count width tile_size)).map (fun x =>
      { x_index := x, y_index := y,
        content_width := min tile_size (width - x * tile_size),
        content_height := min tile_size (height - y * tile_size) }))

/-- The producer's tile stream: every tile is requested at the full
`tile_size × tile_size` content size regardless of position. -/
def produced_tiles (img : Image) (tile_size padding : ℕ) : List Image :=
  (tile_metas img.width img.height tile_size).map (fun m =>
    extract_tile_with_mirroring img (m.x_index * tile_size) (m.y_index * tile_size)
      tile_size tile_size padding)

/-- The producer's batching loop: push each item, flush once the batch
reaches `batch_size` (for `batch_size = 0` the `len >= batch_size` check
fires after every push, i.e. it batches like size 1), and emit any residual
partial batch at the end. -/
def batch_loop {α : Type} (batch_size : ℕ) (acc : List α) : List α → List (List α)
  | [] => if acc.isEmpty then [] else [acc]
  | x :: xs =>
    if batch_size ≤ (acc ++ [x]).length
    then (acc ++ [x]) :: batch_loop batch_size [] xs
    else batch_loop batch_size (acc ++ [x]) xs

/-- The consumer: receive a batch, run inference, require equal counts,
stitch each (tile, metadata) pair, repeat. -/
def consume (infer : List Image → Except AppError (List Image))
    (scale padding tile_size : ℕ) (out : Image) :
    List (List (Image × TileMetadata)) → Except AppError Image
  | [] => .ok out
  | chunk :: rest =>
    match infer (chunk.map Prod.fst) with
    | .error e => .error e
    | .ok upscaled_tiles =>
      if upscaled_tiles.length ≠ chunk.length
      then .error (.Unknown "Batch size mismatch")
      else
        consume infer scale padding tile_size
          ((upscaled_tiles.zip (chunk.map Prod.snd)).foldl
            (fun o tm => stitch_tile o tm.1 tm.2 scale padding tile_size) out)
          rest

/-- The OOM preflight message from `process_tiled`
(`"Insufficient memory. Need ~{} MB, Available {} MB"`). -/
def insufficient_memory_msg (required available : ℕ) : String :=
  "Insufficient memory. Need ~" ++ toString (required / 1024 / 1024) ++
    " MB, Available " ++ toString (available / 1024) ++ " MB"

/-- Function `process_tiled`.  Here `avail` is the raw value of
`sysinfo::System::available_memory()` (bytes in the sysinfo release line this
code builds against).  Output dimensions are u32 products, hence `% 2^32`. -/
def process_tiled (img : Image) (config : TilingConfig) (scale : ℕ)
    (avail : ℕ) (infer : List Image → Except AppError (List Image)) :
    Except AppError Image :=
  let width := img.width
  let height := img.height
  let out_width := width * scale % 2 ^ 32
  let out_height := height * scale % 2 ^ 32
  let required_memory := out_width * out_height * 3 + 1024 * 1024 * 100
  if avail < required_memory / 1024 then
    .error (.Unknown (insufficient_memory_msg required_memory avail))
  else
    let tiles_x := tiles_count width config.tile_size
    let tiles_y := tiles_count height config.tile_size
    let total_tiles := tiles_x * tiles_y
    let padding := if total_tiles = 1 then 0 else max config.padding 32
    let metas := tile_metas width height config.tile_size
    let tiles := produced_tiles img config.tile_size padding
    let batches := batch_loop config.batch_size [] (tiles.zip metas)
    let output_image : Image := ⟨out_width, out_height, fun _ _ => (0, 0, 0)⟩
    consume infer scale padding config.tile_size output_image batches

/-! ### Exact model of the f32 arithmetic used for the downscale target

`engine/mod.rs` computes `(w as f32 * (target_scale as f32 / model_scale as
f32)) as u32`.  IEEE-754 binary32 round-to-nearest-even is modelled exactly
on rationals for positive values in the normal range; the embedded
computations never produce subnormal, overflowing or nonpositive
intermediate values. -/

/-- Round a rational to an integer, ties to even. -/
def rne (x : ℚ) : ℤ :=
  if Int.fract x < 1 / 2 then ⌊x⌋
  else if 1 / 2 < Int.fract x then ⌊x⌋ + 1
  else if 2 ∣ ⌊x⌋ then ⌊x⌋ else ⌊x⌋ + 1

/-- binary32 round-to-nearest-even: scale into `[2^23, 2^24)`, round to an
integer significand, scale back.  Nonpositive arguments (never produced by
the embedded computations) map to 0. -/
def roundF32 (q : ℚ) : ℚ :=
  if q ≤ 0 then 0
  else (rne (q * 2 ^ (23 - Int.log 2 q)) : ℚ) * 2 ^ (Int.log 2 q - 23)

/-- Rust `as u32` on a (non-NaN) f32: truncate toward zero and saturate. -/
def trunc_as_u32 (q : ℚ) : ℕ := min (⌊q⌋.toNat) (2 ^ 32 - 1)

/-- One dimension of the downscale target in `process_with_session`:
`(w as f32 * (target_scale as f32 / model_scale as f32)) as u32`. -/
def resize_target_dim (w target_scale model_scale : ℕ) : ℕ :=
  trunc_as_u32 (roundF32 ((roundF32 w) *
    roundF32 ((roundF32 target_scale) / (roundF32 model_scale))))

/-- Function `resize_image` from `image_processing.rs`: unwraps `NonZeroU32` for all
four dimensions (the panic on zero is modelled as an error) and delegates
resampling to the external `fast_image_resize` crate (Catmull-Rom), which
fills a destination buffer of exactly the requested dimensions; pixel
content is external-crate behaviour and is modelled only up to dimensions. -/
def resize_image (img : Image) (width height : ℕ) : Except AppError Image :=
  if img.width = 0 ∨ img.height = 0 ∨ width = 0 ∨ height = 0 then
    .error (.Unknown "NonZeroU32 unwrap on zero dimension")
  else
    .ok { width := width, height := height, pix := fun _ _ => (0, 0, 0) }

/-! ### The orchestrator (`engine/mod.rs`, `process_with_session`) -/

/-- Batch-size configuration from `process_with_session`:
`config.batch_size.unwrap_or(1).clamp(1, 8)`, then coerced to 1 with one
warning-sink invocation when the model reports a static batch of 1 and the
clamped request exceeds 1.  Returns `(effective batch, warning count)`. -/
def effective_batch_warn (is_static_batch : Option ℕ) (req_batch : Option ℕ) :
    ℕ × ℕ :=
  let batch0 := min 8 (max 1 (req_batch.getD 1))
  match is_static_batch with
  | some static_b => if static_b = 1 ∧ 1 < batch0 then (1, 1) else (batch0, 0)
  | none => (batch0, 0)

/-- Function `process_with_session` from `engine/mod.rs`, after the image has been
loaded and the session constraints `(fixed_input_size, is_static_batch)`
have been read.  Returns the job result together with the number of times
the warning sink was invoked.  Progress throttling, logging and the
buffer pool are not modelled (they do not affect any claim); the inference
callback is abstracted as `infer`. -/
def process_with_session (model_scale recommended_tile_size : ℕ)
    (fixed_input_size is_static_batch : Option ℕ)
    (target_scale : ℕ) (req_batch : Option ℕ)
    (img : Image) (avail : ℕ)
    (infer : List Image → Except AppError (List Image)) :
    Except AppError Image × ℕ :=
  let bw := effective_batch_warn is_static_batch req_batch
  let batch_size := bw.1
  let warnings := bw.2
  let padding := 32
  let tile_size_result : Except AppError ℕ :=
    match fixed_input_size with
    | some fixed_size =>
      if fixed_size ≤ padding * 2 then
        .error (.Unknown ("Model input size " ++ toString fixed_size ++
          " is too small for padding " ++ toString padding))
      else .ok (fixed_size - padding * 2)
    | none => .ok recommended_tile_size
  match tile_size_result with
  | .error e => (.error e, warnings)
  | .ok tile_size =>
    let config : TilingConfig :=
      { tile_size := tile_size, padding := padding, batch_size := batch_size }
    let result : Except AppError Image :=
      if model_scale = target_scale then
        -- CASE A: match, single pass
        process_tiled img config model_scale avail infer
      else if target_scale < model_scale then
        -- CASE B: downscale after one pass at the model scale
        match process_tiled img config model_scale avail infer with
        | .error e => .error e
        | .ok upscaled =>
          resize_image upscaled
            (resize_target_dim upscaled.width target_scale model_scale)
            (resize_target_dim upscaled.height target_scale model_scale)
      else
        -- CASE C: double upscale, second pass consumes the first
        match process_tiled img config model_scale avail infer with
        | .error e => .error e
        | .ok pass1 => process_tiled pass1 config model_scale avail infer
    (result, warnings)

/-! ### Model & scale cache (`state.rs`)

Sessions are identified by opaque ids; loading a model is abstracted by
passing the id the fresh `OrtSession::new` call would produce.  The caches
are modelled as a single-slot option plus a map from paths to `u32`. -/

/-- A model path (`PathBuf`). -/
abbrev ModelPath := String

/-- The two caches of `AppState` relevant to the claims. -/
structure CacheState where
  model_cache : Option (ModelPath × ℕ)
  scale_cache : ModelPath → Option ℕ

/-- Method `AppState::get_or_load_model`.  Here `fresh` is the session the heavy
`OrtSession::new` load would produce; `low_memory` is the `< 2 GB` RAM
preflight.  Returns the session handed to the caller and the new state. -/
def get_or_load_model (st : CacheState) (model_path : ModelPath)
    (fresh : ℕ) (low_memory : Bool) : ℕ × CacheState :=
  if low_memory then
    (fresh, st)
  else
    match st.model_cache with
    | some (cached_path, session) =>
      if cached_path = model_path then (session, st)
      else (fresh, { st with model_cache := some (model_path, fresh) })
    | none => (fresh, { st with model_cache := some (model_path, fresh) })

/-- The negative-cache error message of `AppState::get_model_scale`. -/
def negative_cache_msg : String :=
  "Model previously failed scale detection (Negative Cache)"

/-- Method `AppState::get_model_scale`.  Here `probe` is the outcome the heavy
`session.detect_scale()` call would produce; on a cache hit it is not
consulted. -/
def get_model_scale (st : CacheState) (model_path : ModelPath)
    (probe : Except AppError ℕ) : Except AppError ℕ × CacheState :=
  match st.scale_cache model_path with
  | some scale =>
    if scale = 0 then (.error (.Unknown negative_cache_msg), st)
    else (.ok scale, st)
  | none =>
    match probe with
    | .ok scale =>
      (.ok scale,
       { st with scale_cache := fun p => if p = model_path then some scale else st.scale_cache p })
    | .error e =>
      (.error e,
       { st with scale_cache := fun p => if p = model_path then some 0 else st.scale_cache p })

/-- Method `AppState::invalidate_cache`: removes the path from the scale cache.
(The single-slot `model_cache` is not touched by the source.) -/
def invalidate_cache (st : CacheState) (path : ModelPath) : CacheState :=
  { st with scale_cache := fun p => if p = path then none else st.scale_cache p }

/-! ### Filename-based scale fallback

Three sites infer a scale from the model filename:
`engine/mod.rs` (`load_model`), `commands.rs` (`preload_model`) and
`models.rs` (`ModelScanner::scan_file`). -/

/-- Substring test on character lists (Rust `str::contains`). -/
def listContainsSub : List Char → List Char → Bool
  | l, pat =>
    match l with
    | [] => pat.isEmpty
    | _ :: tail => pat.isPrefixOf l || listContainsSub tail pat

/-- Rust `String::contains(pat)`. -/
def strContainsSub (s pat : String) : Bool := listContainsSub s.data pat.data

/-- The fallback in `UpscaleEngine::load_model`:
`if model_filename.contains("x2") { 2 } else { 4 }`. -/
def load_model_scale_fallback (model_filename : String) : ℕ :=
  if strContainsSub model_filename "x2" then 2 else 4

/-- The fallback in `preload_model` (`commands.rs`): `x2` → 2, `x3` → 3,
otherwise 4. -/
def preload_model_scale_fallback (model_filename : String) : ℕ :=
  if strContainsSub model_filename "x2" then 2
  else if strContainsSub model_filename "x3" then 3
  else 4

/-- The filename-only scale inference in `ModelScanner::scan_file`
(`models.rs`): `x2` → 2, `x3` → 3, otherwise 4. -/
def scan_file_scale (filename : String) : ℕ :=
  if strContainsSub filename "x2" then 2
  else if strContainsSub filename "x3" then 3
  else 4

/-! ### OOM remapping in the inference callback (`engine/mod.rs`) -/

/-- Lowercasing as Rust `str::to_lowercase` acts on ASCII error text. -/
def strToLower (s : String) : String := ⟨s.data.map Char.toLower⟩

/-- The error path of the inference callback built in
`process_with_session`: `err_str = e.to_string().to_lowercase()`; if it
contains `"memory"`, `"allocate"` or `"vram"` the error is replaced by
an `AppError::Unknown` carrying an out-of-memory message that embeds the original error text,
otherwise the error is returned unchanged. -/
def remap_inference_error (e : AppError) : AppError :=
  let err_str := strToLower e.toMessage
  if strContainsSub err_str "memory" || strContainsSub err_str "allocate" ||
      strContainsSub err_str "vram" then
    .Unknown ("Out of Memory. Try closing other apps. (Technical: " ++
      e.toMessage ++ ")")
  else e

/-- OOM detection predicate as the amended claim states it: the lowercased
rendering of the error contains `"memory"`, `"allocate"` or `"vram"`. -/
def oom_detected (e : AppError) : Bool :=
  strContainsSub (strToLower e.toMessage) "memory" ||
  strContainsSub (strToLower e.toMessage) "allocate" ||
  strContainsSub (strToLower e.toMessage) "vram"

/-- A 3×3 test image whose pixel value records its own coordinates, so that
distinct pixels are distinguishable (used to exercise the mirroring claims,
mirroring the spec's 3×3 scenario). -/
def img3 : Image := ⟨3, 3, fun x y => (x, y, 0)⟩

/-- A cache state whose single slot holds a model with session id 7 and
whose scale cache knows that model at scale 2. -/
def cache_with_model : CacheState :=
  ⟨some ("m.onnx", 7), fun p => if p = "m.onnx" then some 2 else none⟩

/-- An empty cache state. -/
def empty_cache : CacheState := ⟨none, fun _ => none⟩

/-! ## Supporting lemmas about the tiled pipeline -/

/-- Stitching never changes the output canvas dimensions. -/
theorem stitch_tile_dims (out tile : Image) (meta : TileMetadata)
    (scale padding tile_size : ℕ) :
    (stitch_tile out tile meta scale padding tile_size).width = out.width ∧
    (stitch_tile out tile meta scale padding tile_size).height = out.height :=
  ⟨rfl, rfl⟩

/-- Folding `stitch_tile` over a batch never changes the canvas dimensions. -/
theorem foldl_stitch_dims (scale padding tile_size : ℕ) :
    ∀ (l : List (Image × TileMetadata)) (out : Image),
      (l.foldl (fun o tm => stitch_tile o tm.1 tm.2 scale padding tile_size) out).width
        = out.width ∧
      (l.foldl (fun o tm => stitch_tile o tm.1 tm.2 scale padding tile_size) out).height
        = out.height := by
  intro l
  induction l with
  | nil => intro out; exact ⟨rfl, rfl⟩
  | cons hd tl ih =>
    intro out
    simpa only [List.foldl_cons] using ih (stitch_tile out hd.1 hd.2 scale padding tile_size)

/-- A successful `consume` returns an image with the canvas dimensions. -/
theorem consume_ok_dims (infer : List Image → Except AppError (List Image))
    (scale padding tile_size : ℕ) :
    ∀ (batches : List (List (Image × TileMetadata))) (out r : Image),
      consume infer scale padding tile_size out batches = .ok r →
      r.width = out.width ∧ r.height = out.height := by
  intro batches
  induction batches with
  | nil =>
    intro out r h
    simp only [consume] at h
    cases h
    exact ⟨rfl, rfl⟩
  | cons chunk rest ih =>
    intro out r h
    simp only [consume] at h
    cases hinf : infer (chunk.map Prod.fst) with
    | error e => rw [hinf] at h; cases h
    | ok ups =>
      rw [hinf] at h
      by_cases hlen : ups.length = chunk.length
      · simp only [hlen, ne_eq, not_true_eq_false, if_false] at h
        have := ih _ _ h
        have hd := foldl_stitch_dims scale padding tile_size
          (ups.zip (chunk.map Prod.snd)) out
        exact ⟨this.1.trans hd.1, this.2.trans hd.2⟩
      · simp only [ne_eq, hlen, not_false_eq_true, if_true] at h
        cases h

/-- A successful `process_tiled` run yields exactly the
`(width*scale, height*scale)` canvas (as u32 products). -/
theorem process_tiled_ok_dims (img : Image) (config : TilingConfig)
    (scale avail : ℕ) (infer : List Image → Except AppError (List Image))
    (r : Image) (h : process_tiled img config scale avail infer = .ok r) :
    r.width = img.width * scale % 2 ^ 32 ∧ r.height = img.height * scale % 2 ^ 32 := by
  simp only [process_tiled] at h
  by_cases hmem : avail <
      (img.width * scale % 2 ^ 32 * (img.height * scale % 2 ^ 32) * 3 + 1024 * 1024 * 100) / 1024
  · rw [if_pos hmem] at h; cases h
  · rw [if_neg hmem] at h
    exact consume_ok_dims _ _ _ _ _ _ _ h

/-- With the identity inference callback, `consume` always succeeds. -/
theorem consume_pure_ok (scale padding tile_size : ℕ) :
    ∀ (batches : List (List (Image × TileMetadata))) (out : Image),
      ∃ r, consume (fun b => .ok b) scale padding tile_size out batches = .ok r := by
  intro batches
  induction batches with
  | nil => intro out; exact ⟨out, rfl⟩
  | cons chunk rest ih =>
    intro out
    simp only [consume, List.length_map, ne_eq, not_true_eq_false, if_false]
    exact ih _

/-- Each batch emitted by the producer's batching loop draws its elements
from the accumulator or the remaining stream. -/
theorem batch_loop_mem {α : Type} (n : ℕ) :
    ∀ (l acc : List α) (b : List α) (x : α),
      b ∈ batch_loop n acc l → x ∈ b → x ∈ acc ∨ x ∈ l := by
  intro l
  induction l with
  | nil =>
    intro acc b x hb hx
    simp only [batch_loop] at hb
    by_cases hacc : acc.isEmpty
    · rw [if_pos hacc] at hb; cases hb
    · rw [if_neg hacc, List.mem_singleton] at hb
      subst hb
      exact Or.inl hx
  | cons y ys ih =>
    intro acc b x hb hx
    simp only [batch_loop] at hb
    by_cases hfull : n ≤ (acc ++ [y]).length
    · simp only [hfull, if_true, List.mem_cons] at hb
      rcases hb with hb | hb
      · subst hb
        rcases List.mem_append.mp hx with hx | hx
        · exact Or.inl hx
        · exact Or.inr (List.mem_cons.mpr (Or.inl (List.mem_singleton.mp hx)))
      · rcases ih [] b x hb hx with hc | hc
        · cases hc
        · exact Or.inr (List.mem_cons.mpr (Or.inr hc))
    · simp only [hfull, if_false] at hb
      rcases ih (acc ++ [y]) b x hb hx with hc | hc
      · rcases List.mem_append.mp hc with hc | hc
        · exact Or.inl hc
        · exact Or.inr (List.mem_cons.mpr (Or.inl (List.mem_singleton.mp hc)))
      · exact Or.inr (List.mem_cons.mpr (Or.inr hc))

/-- The warning counter of `process_with_session` is exactly the one of the
batch-size configuration step (it fires before any tiling work). -/
theorem process_with_session_warnings (model_scale recommended_tile_size : ℕ)
    (fixed_input_size is_static_batch : Option ℕ) (target_scale : ℕ)
    (req_batch : Option ℕ) (img : Image) (avail : ℕ)
    (infer : List Image → Except AppError (List Image)) :
    (process_with_session model_scale recommended_tile_size fixed_input_size
      is_static_batch target_scale req_batch img avail infer).2 =
      (effective_batch_warn is_static_batch req_batch).2 := by
  simp only [process_with_session]
  cases fixed_input_size with
  | none => rfl
  | some fs =>
    by_cases hfs : fs ≤ 32 * 2
    · simp [hfs]
    · simp [hfs]

/-! ## Claim theorems -/

/-- C2 (counterexample): the claim that every out-of-bound coordinate is
sampled at its iterative ping-pong reflection fails: extracting past the
right edge of a 3×3 image at ideal source column 5 samples column 0 (the
code reflects once to -1 and then clamps), while the ping-pong reflection
of 5 is column 1. -/
theorem mirror_claim_counterexample :
    (extract_tile_with_mirroring img3 0 0 6 6 0).pix 5 0 ≠
      img3.pix (pingpong 3 ((0 : ℤ) + 5 - 0)) (pingpong 3 ((0 : ℤ) + 0 - 0)) := by
  simp only [extract_tile_with_mirroring, img3, mirror_coordinate,
    reflect_low_eq, reflect_high_eq]
  decide

/-- C2 (amended): for any coordinate produced during tile extraction whose
ideal source index lies within one reflection period of the image extent
(`|i| ≤ 2(max-1)`), the sampled pixel equals the pixel at the ping-pong
reflection of that coordinate; beyond one period the code instead clamps a
single reflection to the valid range. -/
theorem extract_tile_pingpong (img : Image)
    (x_start y_start target_w target_h padding tile_x tile_y : ℕ)
    (hw : 1 ≤ img.width) (hh : 1 ≤ img.height)
    (hx : ((x_start : ℤ) + tile_x - padding).natAbs ≤ 2 * (img.width - 1))
    (hy : ((y_start : ℤ) + tile_y - padding).natAbs ≤ 2 * (img.height - 1)) :
    (extract_tile_with_mirroring img x_start y_start target_w target_h padding).pix
        tile_x tile_y =
      img.pix (pingpong img.width ((x_start : ℤ) + tile_x - padding))
        (pingpong img.height ((y_start : ℤ) + tile_y - padding)) := by
  show img.pix (mirror_coordinate _ _) (mirror_coordinate _ _) = _
  rw [mirror_eq_pingpong _ _ hw hx, mirror_eq_pingpong _ _ hh hy]

/-- Witness for the amended C2 theorem at a concrete tile coordinate one
column past the right edge of the 3×3 image. -/
theorem extract_tile_pingpong_witness :
    ((0 : ℤ) + 4 - 0).natAbs ≤ 2 * (img3.width - 1) ∧
    (extract_tile_with_mirroring img3 0 0 6 6 0).pix 4 0 =
      img3.pix (pingpong 3 ((0 : ℤ) + 4 - 0)) (pingpong 3 ((0 : ℤ) + 0 - 0)) :=
  ⟨by decide,
   extract_tile_pingpong img3 0 0 6 6 0 4 0 (by decide) (by decide)
     (by decide) (by decide)⟩

/-- C3 (counterexample): the claim that the preflight rejects exactly when
available memory is at or below the byte threshold fails: for a 1×1 image
at scale 1 the byte threshold is 104857603, and an available-memory reading
equal to that threshold is accepted (the code compares against the
threshold divided by 1024). -/
theorem memory_preflight_counterexample :
    (104857603 : ℕ) ≤ 1 * 1 % 2 ^ 32 * (1 * 1 % 2 ^ 32) * 3 + 1024 * 1024 * 100 ∧
    (process_tiled ⟨1, 1, fun _ _ => (0, 0, 0)⟩ ⟨64, 32, 1⟩ 1 104857603
        (fun b => .ok b)).isOk = true := by
  exact ⟨by norm_num, by decide⟩

/-- C3 (amended): `process_tiled` fails (for every inference callback, i.e.
without running any inference) with the generic `Unknown`
"Insufficient memory" error exactly when the sysinfo available-memory
reading is strictly below the byte threshold
`(W·scale)·(H·scale)·3 + 100 MiB` divided by 1024 (integer division). -/
theorem process_tiled_memory_preflight (img : Image) (config : TilingConfig)
    (scale avail : ℕ) :
    (∀ infer, process_tiled img config scale avail infer =
      .error (.Unknown (insufficient_memory_msg
        (img.width * scale % 2 ^ 32 * (img.height * scale % 2 ^ 32) * 3 +
          1024 * 1024 * 100) avail))) ↔
    avail < (img.width * scale % 2 ^ 32 * (img.height * scale % 2 ^ 32) * 3 +
      1024 * 1024 * 100) / 1024 := by
  constructor
  · intro h
    by_contra hge
    obtain ⟨r, hr⟩ := consume_pure_ok scale
      (if tiles_count img.width config.tile_size *
          tiles_count img.height config.tile_size = 1 then 0
       else max config.padding 32) config.tile_size
      (batch_loop config.batch_size []
        ((produced_tiles img config.tile_size
          (if tiles_count img.width config.tile_size *
              tiles_count img.height config.tile_size = 1 then 0
           else max config.padding 32)).zip
          (tile_metas img.width img.height config.tile_size)))
      ⟨img.width * scale % 2 ^ 32, img.height * scale % 2 ^ 32, fun _ _ => (0, 0, 0)⟩
    have h0 := h (fun b => .ok b)
    simp only [process_tiled, if_neg hge] at h0
    rw [hr] at h0
    cases h0
  · intro h infer
    simp only [process_tiled, if_pos h]

/-- C4 (counterexample): invalidating a cached model path removes its scale
entry but does not clear the single-slot session cache: the slot still
holds the pair, and a subsequent `get_or_load_model` returns the cached
session id 7 rather than the fresh session 99 (no reload happens). -/
theorem invalidate_cache_counterexample :
    (invalidate_cache cache_with_model "m.onnx").scale_cache "m.onnx" = none ∧
    (invalidate_cache cache_with_model "m.onnx").model_cache = some ("m.onnx", 7) ∧
    (get_or_load_model (invalidate_cache cache_with_model "m.onnx") "m.onnx" 99
      false).1 = 7 := by
  refine ⟨by decide, rfl, by decide⟩

/-- C4 (amended): `invalidate_cache(p)` removes `p` from the scale cache
(so the next `get_model_scale` for `p` re-runs the probe and returns its
outcome), but leaves the single-slot session cache untouched, so when the
slot holds `p` a subsequent `get_or_load_model` (outside the low-memory
path) returns the cached session without reloading. -/
theorem invalidate_cache_spec (st : CacheState) (path : ModelPath)
    (session fresh : ℕ) (probe : Except AppError ℕ) :
    (invalidate_cache st path).scale_cache path = none ∧
    (invalidate_cache st path).model_cache = st.model_cache ∧
    (get_model_scale (invalidate_cache st path) path probe).1 = probe ∧
    (st.model_cache = some (path, session) →
      (get_or_load_model (invalidate_cache st path) path fresh false).1 = session) := by
  refine ⟨by simp [invalidate_cache], rfl, ?_, ?_⟩
  · simp only [get_model_scale, invalidate_cache, if_pos rfl]
    cases probe <;> rfl
  · intro h
    simp [get_or_load_model, invalidate_cache, h]

/-- Witness for the amended C4 theorem on the populated cache state. -/
theorem invalidate_cache_spec_witness :
    cache_with_model.model_cache = some ("m.onnx", 7) ∧
    (get_or_load_model (invalidate_cache cache_with_model "m.onnx") "m.onnx" 99
      false).1 = 7 :=
  ⟨rfl, (invalidate_cache_spec cache_with_model "m.onnx" 7 99
    (.ok 2)).2.2.2 rfl⟩

/-- C5 (counterexample): the engine model-loading fallback maps a filename
containing `"x3"` to scale 4, not 3 as the claim requires of every
fallback site. -/
theorem filename_scale_counterexample :
    load_model_scale_fallback "modelx3.onnx" = 4 ∧ (4 : ℕ) ≠ 3 := by
  exact ⟨by decide, by decide⟩

/-- C5 (amended): the preload entry point and manifest scanning infer 2 for
`"x2"`, 3 for `"x3"`, else 4 and agree on every filename; the engine
model-loading fallback checks only `"x2"` (else 4), so it agrees with the
other two exactly when the filename contains `"x2"` or does not contain
`"x3"`. -/
theorem filename_scale_fallback_spec (filename : String) :
    scan_file_scale filename = preload_model_scale_fallback filename ∧
    (load_model_scale_fallback filename = preload_model_scale_fallback filename ↔
      (strContainsSub filename "x2" = true ∨ strContainsSub filename "x3" = false)) := by
  refine ⟨rfl, ?_⟩
  unfold load_model_scale_fallback preload_model_scale_fallback
  by_cases h2 : strContainsSub filename "x2" <;>
    by_cases h3 : strContainsSub filename "x3" <;>
      simp [h2, h3]

/-- C6 (counterexample): the claim that errors whose message lacks the
substrings `"memory"`, `"allocate"`, `"vram"` are propagated with their
original kind fails: a runtime error reading `"VRAM exhausted"` contains
none of the three lowercase substrings, yet the callback replaces it (the
code matches on the lowercased message).  There is also no distinguished
OOM variant to remap to: the replacement is `AppError.Unknown`. -/
theorem oom_remap_counterexample :
    strContainsSub (AppError.toMessage (.OrtError "VRAM exhausted")) "memory" = false ∧
    strContainsSub (AppError.toMessage (.OrtError "VRAM exhausted")) "allocate" = false ∧
    strContainsSub (AppError.toMessage (.OrtError "VRAM exhausted")) "vram" = false ∧
    remap_inference_error (.OrtError "VRAM exhausted") ≠ .OrtError "VRAM exhausted" := by
  exact ⟨by decide, by decide, by decide, by decide⟩

/-- C6 (amended): when the lowercased rendering of an inference error
contains `"memory"`, `"allocate"` or `"vram"`, the callback replaces it by
`AppError.Unknown` carrying the out-of-memory message (there is no tagged
`Oom` variant in the error type); otherwise the error is returned
unchanged. -/
theorem oom_remap_spec (e : AppError) :
    (oom_detected e = true →
      remap_inference_error e =
        .Unknown ("Out of Memory. Try closing other apps. (Technical: " ++
          e.toMessage ++ ")")) ∧
    (oom_detected e = false → remap_inference_error e = e) := by
  unfold remap_inference_error oom_detected
  constructor
  · intro h
    rw [if_pos h]
  · intro h
    rw [if_neg (by rw [h]; exact Bool.false_ne_true)]

/-- Witness for the amended C6 theorem at a concrete runtime OOM error. -/
theorem oom_remap_spec_witness :
    oom_detected (.OrtError "out of memory") = true ∧
    remap_inference_error (.OrtError "out of memory") =
      .Unknown ("Out of Memory. Try closing other apps. (Technical: " ++
        AppError.toMessage (.OrtError "out of memory") ++ ")") :=
  ⟨by decide, (oom_remap_spec (.OrtError "out of memory")).1 (by decide)⟩

/-- C7 (confirmed): on a cache miss, a failing probe stores the sentinel 0
and every later `get_model_scale` for the same path fails immediately with
the negative-cache error, identically for every probe outcome (i.e. without
invoking the probe) and without changing state; a succeeding probe with a
positive scale stores it and every later call returns it, again identically
for every probe outcome. -/
theorem negative_scale_cache_spec (st : CacheState) (path : ModelPath)
    (e : AppError) (scale : ℕ) (hmiss : st.scale_cache path = none) :
    ((get_model_scale st path (.error e)).1 = .error e ∧
     (get_model_scale st path (.error e)).2.scale_cache path = some 0 ∧
     (∀ probe, get_model_scale (get_model_scale st path (.error e)).2 path probe =
       (.error (.Unknown negative_cache_msg),
        (get_model_scale st path (.error e)).2))) ∧
    (0 < scale →
     (get_model_scale st path (.ok scale)).1 = .ok scale ∧
     (get_model_scale st path (.ok scale)).2.scale_cache path = some scale ∧
     (∀ probe, get_model_scale (get_model_scale st path (.ok scale)).2 path probe =
       (.ok scale, (get_model_scale st path (.ok scale)).2))) := by
  have h1 : get_model_scale st path (.error e) =
      (.error e,
       { st with scale_cache := fun p => if p = path then some 0 else st.scale_cache p }) := by
    unfold get_model_scale
    rw [hmiss]
  have h2 : get_model_scale st path (.ok scale) =
      (.ok scale,
       { st with scale_cache := fun p => if p = path then some scale else st.scale_cache p }) := by
    unfold get_model_scale
    rw [hmiss]
  constructor
  · refine ⟨?_, ?_, ?_⟩
    · rw [h1]
    · rw [h1]; simp
    · intro probe
      rw [h1]
      have hs : ({ st with scale_cache :=
          fun p => if p = path then some 0 else st.scale_cache p } : CacheState).scale_cache
            path = some 0 := by simp
      unfold get_model_scale
      rw [hs]
      rfl
  · intro hpos
    refine ⟨?_, ?_, ?_⟩
    · rw [h2]
    · rw [h2]; simp
    · intro probe
      rw [h2]
      have hs : ({ st with scale_cache :=
          fun p => if p = path then some scale else st.scale_cache p } : CacheState).scale_cache
            path = some scale := by simp
      unfold get_model_scale
      rw [hs]
      show (if scale = 0 then _ else _) = _
      rw [if_neg (by omega : ¬ scale = 0)]

/-- Witness for the C7 theorem on an empty cache with a failing and a
succeeding probe at scale 2. -/
theorem negative_scale_cache_spec_witness :
    empty_cache.scale_cache "m.onnx" = none ∧
    (0 : ℕ) < 2 ∧
    (get_model_scale empty_cache "m.onnx" (.error (.Unknown "probe failed"))).1 =
      .error (.Unknown "probe failed") ∧
    (get_model_scale empty_cache "m.onnx" (.ok 2)).1 = .ok 2 :=
  ⟨rfl, by decide,
   ((negative_scale_cache_spec empty_cache "m.onnx" (.Unknown "probe failed") 2
      rfl).1).1,
   (((negative_scale_cache_spec empty_cache "m.onnx" (.Unknown "probe failed") 2
      rfl).2) (by decide)).1⟩

/-- C8 (confirmed): when the model reports a static batch of 1 and the
user-configured batch exceeds 1, the effective batch is coerced to 1 and
the warning sink of `process_with_session` fires exactly once; when the
static batch is absent or the request is 1, no warning fires and the
effective batch is the request clamped to `[1, 8]`. -/
theorem batch_override_warning (model_scale recommended_tile_size : ℕ)
    (fixed_input_size is_static_batch : Option ℕ) (target_scale : ℕ)
    (req_batch : Option ℕ) (n : ℕ) (img : Image) (avail : ℕ)
    (infer : List Image → Except AppError (List Image)) :
    (is_static_batch = some 1 → req_batch = some n → 1 < n →
      effective_batch_warn is_static_batch req_batch = (1, 1) ∧
      (process_with_session model_scale recommended_tile_size fixed_input_size
        is_static_batch target_scale req_batch img avail infer).2 = 1) ∧
    ((is_static_batch = none ∨ req_batch = some 1) →
      (effective_batch_warn is_static_batch req_batch).1 =
        min 8 (max 1 (req_batch.getD 1)) ∧
      (process_with_session model_scale recommended_tile_size fixed_input_size
        is_static_batch target_scale req_batch img avail infer).2 = 0) := by
  constructor
  · intro hsb hreq hn
    subst hsb; subst hreq
    have hb : effective_batch_warn (some 1) (some n) = (1, 1) := by
      have hn2 : (1 : ℕ) < min 8 (max 1 n) := by omega
      simp [effective_batch_warn, hn2]
    refine ⟨hb, ?_⟩
    rw [process_with_session_warnings, hb]
  · intro hcase
    have hb : (effective_batch_warn is_static_batch req_batch).1 =
        min 8 (max 1 (req_batch.getD 1)) ∧
        (effective_batch_warn is_static_batch req_batch).2 = 0 := by
      rcases hcase with h | h
      · subst h; exact ⟨rfl, rfl⟩
      · subst h
        cases is_static_batch with
        | none => exact ⟨rfl, rfl⟩
        | some sb =>
          simp only [effective_batch_warn, Option.getD_some]
          rw [if_neg (by omega : ¬ (sb = 1 ∧ 1 < min 8 (max 1 1)))]
          exact ⟨rfl, rfl⟩
    refine ⟨hb.1, ?_⟩
    rw [process_with_session_warnings, hb.2]

/-- Witness for the C8 theorem: static batch 1 with a requested batch of 4
warns once with effective batch 1; no static batch with a requested batch
of 5 does not warn. -/
theorem batch_override_warning_witness :
    (effective_batch_warn (some 1) (some 4) = (1, 1) ∧
     (process_with_session 4 256 none (some 1) 4 (some 4) img3 (10 ^ 9)
       (fun b => .ok b)).2 = 1) ∧
    (effective_batch_warn none (some 5)).1 = min 8 (max 1 ((some 5).getD 1)) ∧
    (process_with_session 4 256 none none 4 (some 5) img3 (10 ^ 9)
      (fun b => .ok b)).2 = 0 :=
  ⟨(batch_override_warning 4 256 none (some 1) 4 (some 4) 4 img3 (10 ^ 9)
      (fun b => .ok b)).1 rfl rfl (by omega),
   (batch_override_warning 4 256 none none 4 (some 5) 4 img3 (10 ^ 9)
      (fun b => .ok b)).2 (Or.inl rfl)⟩

/-- C9 (confirmed): during one tiled pass with tile size `T` and effective
padding `p`, every tile inside every batch handed to the inference callback
has spatial dimensions `(T + 2p) × (T + 2p)`, including edge tiles and
partial last rows/columns (the producer always requests the full tile
size). -/
theorem tile_uniformity (img : Image) (tile_size padding batch_size : ℕ)
    (batch : List (Image × TileMetadata)) (tm : Image × TileMetadata)
    (hb : batch ∈ batch_loop batch_size []
      ((produced_tiles img tile_size padding).zip
        (tile_metas img.width img.height tile_size)))
    (htm : tm ∈ batch) :
    tm.1.width = tile_size + 2 * padding ∧
    tm.1.height = tile_size + 2 * padding := by
  rcases batch_loop_mem batch_size _ [] batch tm hb htm with hc | hc
  · cases hc
  · obtain ⟨t, m⟩ := tm
    have h1 : t ∈ produced_tiles img tile_size padding := (List.of_mem_zip hc).1
    simp only [produced_tiles, List.mem_map] at h1
    obtain ⟨meta, hmeta, rfl⟩ := h1
    exact ⟨rfl, rfl⟩

/-- Witness for the C9 theorem: the single batch of the single tile of a
3×3 image at tile size 64 and padding 0. -/
theorem tile_uniformity_witness :
    [(extract_tile_with_mirroring img3 0 0 64 64 0,
        TileMetadata.mk 0 0 3 3)] ∈
      batch_loop 1 [] ((produced_tiles img3 64 0).zip
        (tile_metas img3.width img3.height 64)) ∧
    (extract_tile_with_mirroring img3 0 0 64 64 0).width = 64 + 2 * 0 ∧
    (extract_tile_with_mirroring img3 0 0 64 64 0).height = 64 + 2 * 0 :=
  have hmem : [(extract_tile_with_mirroring img3 0 0 64 64 0,
      TileMetadata.mk 0 0 3 3)] ∈
      batch_loop 1 [] ((produced_tiles img3 64 0).zip
        (tile_metas img3.width img3.height 64)) :=
    List.mem_singleton.mpr rfl
  ⟨hmem,
   tile_uniformity img3 64 0 1 _ _ hmem (List.mem_singleton.mpr rfl)⟩

/-- C10 (confirmed): `process_tiled` never uses the plan's padding
verbatim: replacing the configured padding by the effective padding —
0 when the tile grid is 1×1, otherwise `max(config.padding, 32)` — leaves
the whole run (extraction and stitch offsets alike) unchanged, so a
requested padding below 32 on a multi-tile grid is silently raised to 32. -/
theorem process_tiled_padding_override (img : Image) (config : TilingConfig)
    (scale avail : ℕ) (infer : List Image → Except AppError (List Image)) :
    process_tiled img config scale avail infer =
      process_tiled img
        { config with padding :=
            (if tiles_count img.width config.tile_size *
                tiles_count img.height config.tile_size = 1 then 0
             else max config.padding 32) }
        scale avail infer := by
  simp only [process_tiled]
  by_cases htot : tiles_count img.width config.tile_size *
      tiles_count img.height config.tile_size = 1
  · simp only [htot, if_true]
  · simp only [htot, if_false, sup_assoc, sup_idem]

/-! ## Supporting lemmas for the binary32 model -/

/-- Uniqueness of the binary exponent: if `2^E ≤ q < 2^(E+1)` then
`Int.log 2 q = E`. -/
theorem int_log2_eq (q : ℚ) (E : ℤ) (h0 : 0 < q)
    (h1 : (2 : ℚ) ^ E ≤ q) (h2 : q < (2 : ℚ) ^ (E + 1)) : Int.log 2 q = E := by
  have l1 : E ≤ Int.log 2 q := by
    rw [← Int.zpow_le_iff_le_log one_lt_two h0]
    exact_mod_cast h1
  have l2 : Int.log 2 q < E + 1 := by
    rw [← Int.lt_zpow_iff_log_lt one_lt_two h0]
    exact_mod_cast h2
  omega

/-- Round-to-nearest-even fixes integers. -/
theorem rne_intCast (n : ℤ) : rne (n : ℚ) = n := by
  unfold rne
  rw [Int.fract_intCast]
  rw [if_pos (by norm_num)]
  exact Int.floor_intCast n

/-- Round-to-nearest-even rounds down below the midpoint. -/
theorem rne_int_add_lt_half (A : ℤ) (f : ℚ) (h0 : 0 ≤ f) (hf : f < 1 / 2) :
    rne ((A : ℚ) + f) = A := by
  unfold rne
  have hfr : Int.fract ((A : ℚ) + f) = f := by
    rw [Int.fract_int_add, Int.fract_eq_self.mpr ⟨h0, by linarith⟩]
  rw [hfr, if_pos hf, Int.floor_int_add]
  rw [Int.floor_eq_zero_iff.mpr ⟨h0, by linarith⟩]
  ring

/-- Round-to-nearest-even rounds up above the midpoint. -/
theorem rne_int_add_gt_half (A : ℤ) (f : ℚ) (hf : 1 / 2 < f) (h1 : f < 1) :
    rne ((A : ℚ) + f) = A + 1 := by
  unfold rne
  have hfr : Int.fract ((A : ℚ) + f) = f := by
    rw [Int.fract_int_add, Int.fract_eq_self.mpr ⟨by linarith, h1⟩]
  rw [hfr, if_neg (by linarith), if_pos hf, Int.floor_int_add]
  rw [Int.floor_eq_zero_iff.mpr ⟨by linarith, h1⟩]
  ring

/-- Every value `n * 2^e` with `0 < n < 2^24` is exactly representable in
binary32, so rounding fixes it. -/
theorem roundF32_rep (n : ℕ) (e : ℤ) (h1 : 0 < n) (h2 : n < 2 ^ 24) :
    roundF32 ((n : ℚ) * 2 ^ e) = (n : ℚ) * 2 ^ e := by
  set l : ℕ := Nat.log2 n with hl
  have hl1 : 2 ^ l ≤ n := Nat.log2_self_le (by omega)
  have hl2 : n < 2 ^ (l + 1) := Nat.lt_log2_self
  have hl23 : l ≤ 23 := by
    by_contra hc
    push_neg at hc
    have : 2 ^ 24 ≤ 2 ^ l := Nat.pow_le_pow_right (by norm_num) (by omega)
    omega
  have h2e : (0 : ℚ) < (2 : ℚ) ^ e := zpow_pos (by norm_num) e
  have hq0 : (0 : ℚ) < (n : ℚ) * 2 ^ e := by positivity
  have hle : (2 : ℚ) ^ (l : ℤ) ≤ (n : ℚ) := by
    rw [zpow_natCast]
    exact_mod_cast hl1
  have hlt : (n : ℚ) < (2 : ℚ) ^ ((l : ℤ) + 1) := by
    rw [show ((l : ℤ) + 1) = ((l + 1 : ℕ) : ℤ) by push_cast; ring, zpow_natCast]
    exact_mod_cast hl2
  have hlog : Int.log 2 ((n : ℚ) * 2 ^ e) = e + l := by
    apply int_log2_eq _ _ hq0
    · rw [add_comm e (l : ℤ), zpow_add₀ (by norm_num : (2 : ℚ) ≠ 0)]
      exact mul_le_mul_of_nonneg_right hle h2e.le
    · rw [show e + (l : ℤ) + 1 = ((l : ℤ) + 1) + e by ring,
        zpow_add₀ (by norm_num : (2 : ℚ) ≠ 0)]
      exact mul_lt_mul_of_pos_right hlt h2e
  unfold roundF32
  rw [if_neg (not_le.mpr hq0), hlog]
  have harg : (n : ℚ) * 2 ^ e * 2 ^ ((23 : ℤ) - (e + (l : ℤ))) =
      (((n * 2 ^ (23 - l) : ℕ) : ℤ) : ℚ) := by
    rw [mul_assoc, ← zpow_add₀ (by norm_num : (2 : ℚ) ≠ 0)]
    rw [show e + ((23 : ℤ) - (e + (l : ℤ))) = ((23 - l : ℕ) : ℤ) by push_cast; omega]
    rw [zpow_natCast]
    push_cast
    ring
  rw [harg, rne_intCast]
  have hback : (((n * 2 ^ (23 - l) : ℕ) : ℤ) : ℚ) =
      (n : ℚ) * (2 : ℚ) ^ (((23 - l : ℕ)) : ℤ) := by
    rw [zpow_natCast]
    push_cast
    ring
  rw [hback, mul_assoc, ← zpow_add₀ (by norm_num : (2 : ℚ) ≠ 0)]
  rw [show (((23 - l : ℕ)) : ℤ) + (e + (l : ℤ) - 23) = e by push_cast; omega]

/-- Rounding a natural below `2^24` to binary32 is exact. -/
theorem roundF32_nat (n : ℕ) (h1 : 0 < n) (h2 : n < 2 ^ 24) :
    roundF32 (n : ℚ) = (n : ℚ) := by
  have := roundF32_rep n 0 h1 h2
  simpa using this

/-- The binary32 rounding of `2/3`: the significand `2^25/3` rounds up,
giving `11184811 / 2^24` (slightly above `2/3`). -/
theorem roundF32_two_thirds : roundF32 (2 / 3 : ℚ) = 11184811 / 2 ^ 24 := by
  have h0 : (0 : ℚ) < 2 / 3 := by norm_num
  have hlog : Int.log 2 ((2 : ℚ) / 3) = -1 := by
    apply int_log2_eq _ _ h0
    · rw [show ((-1 : ℤ)) = -(1 : ℤ) by ring, zpow_neg, zpow_one]
      norm_num
    · norm_num
  unfold roundF32
  rw [if_neg (not_le.mpr h0), hlog]
  have harg : (2 / 3 : ℚ) * 2 ^ ((23 : ℤ) - (-1)) = ((11184810 : ℤ) : ℚ) + 2 / 3 := by
    rw [show ((23 : ℤ) - (-1)) = ((24 : ℕ) : ℤ) by norm_num, zpow_natCast]
    norm_num
  rw [harg, rne_int_add_gt_half 11184810 (2 / 3) (by norm_num) (by norm_num)]
  rw [show ((-1 : ℤ) - 23) = -((24 : ℕ) : ℤ) by norm_num, zpow_neg, zpow_natCast]
  norm_num

/-- Rounding `N * (2^25 + 1) / 2^25` to binary32 gives back `N` for
`0 < N ≤ 2^22`: the relative offset `2^-25` is below half an ulp. -/
theorem roundF32_near_above (N : ℕ) (h1 : 0 < N) (h2 : N ≤ 2 ^ 22) :
    roundF32 ((N : ℚ) * (2 ^ 25 + 1) / 2 ^ 25) = (N : ℚ) := by
  have hq : (N : ℚ) * (2 ^ 25 + 1) / 2 ^ 25 = (N : ℚ) + (N : ℚ) / 2 ^ 25 := by
    field_simp
    ring
  set l : ℕ := Nat.log2 N with hl
  have hl1 : 2 ^ l ≤ N := Nat.log2_self_le (by omega)
  have hl2 : N < 2 ^ (l + 1) := Nat.lt_log2_self
  have hl22 : l ≤ 22 := by
    by_contra hc
    push_neg at hc
    have : 2 ^ 23 ≤ 2 ^ l := Nat.pow_le_pow_right (by norm_num) (by omega)
    omega
  have hN1 : (1 : ℚ) ≤ (N : ℚ) := by exact_mod_cast h1
  have hNu : (N : ℚ) ≤ 2 ^ 22 := by exact_mod_cast h2
  have hfpos : (0 : ℚ) < (N : ℚ) / 2 ^ 25 := by positivity
  have hq0 : (0 : ℚ) < (N : ℚ) * (2 ^ 25 + 1) / 2 ^ 25 := by positivity
  have hle : (2 : ℚ) ^ (l : ℤ) ≤ (N : ℚ) := by
    rw [zpow_natCast]
    exact_mod_cast hl1
  have hlt : (N : ℚ) < (2 : ℚ) ^ ((l : ℤ) + 1) := by
    rw [show ((l : ℤ) + 1) = ((l + 1 : ℕ) : ℤ) by push_cast; ring, zpow_natCast]
    exact_mod_cast hl2
  have hlt' : (N : ℚ) ≤ (2 : ℚ) ^ ((l : ℤ) + 1) - 1 := by
    rw [show ((l : ℤ) + 1) = ((l + 1 : ℕ) : ℤ) by push_cast; ring, zpow_natCast]
    have : (N : ℚ) ≤ ((2 ^ (l + 1) - 1 : ℕ) : ℚ) := by
      exact_mod_cast Nat.le_sub_one_of_lt hl2
    calc (N : ℚ) ≤ ((2 ^ (l + 1) - 1 : ℕ) : ℚ) := this
      _ = (2 : ℚ) ^ (l + 1) - 1 := by
          push_cast [Nat.cast_sub (Nat.one_le_two_pow)]
          norm_num
  have hlog : Int.log 2 ((N : ℚ) * (2 ^ 25 + 1) / 2 ^ 25) = l := by
    apply int_log2_eq _ _ hq0
    · rw [hq]
      calc (2 : ℚ) ^ (l : ℤ) ≤ (N : ℚ) := hle
        _ ≤ (N : ℚ) + (N : ℚ) / 2 ^ 25 := by linarith
    · rw [hq]
      have hfsmall : (N : ℚ) / 2 ^ 25 < 1 := by
        rw [div_lt_one (by positivity)]
        calc (N : ℚ) ≤ 2 ^ 22 := hNu
          _ < 2 ^ 25 := by norm_num
      calc (N : ℚ) + (N : ℚ) / 2 ^ 25 ≤ ((2 : ℚ) ^ ((l : ℤ) + 1) - 1) + (N : ℚ) / 2 ^ 25 := by
            linarith
        _ < (2 : ℚ) ^ ((l : ℤ) + 1) := by linarith
  unfold roundF32
  rw [if_neg (not_le.mpr hq0), hlog]
  have harg : (N : ℚ) * (2 ^ 25 + 1) / 2 ^ 25 * 2 ^ ((23 : ℤ) - (l : ℤ)) =
      (((N * 2 ^ (23 - l) : ℕ) : ℤ) : ℚ) + (N : ℚ) / 2 ^ (l + 2) := by
    rw [hq, add_mul]
    have e1 : (N : ℚ) * 2 ^ ((23 : ℤ) - (l : ℤ)) = (((N * 2 ^ (23 - l) : ℕ) : ℤ) : ℚ) := by
      rw [show ((23 : ℤ) - (l : ℤ)) = ((23 - l : ℕ) : ℤ) by push_cast; omega, zpow_natCast]
      push_cast
      ring
    have e2 : (N : ℚ) / 2 ^ 25 * 2 ^ ((23 : ℤ) - (l : ℤ)) = (N : ℚ) / 2 ^ (l + 2) := by
      rw [show ((23 : ℤ) - (l : ℤ)) = ((23 - l : ℕ) : ℤ) by push_cast; omega, zpow_natCast]
      rw [div_mul_eq_mul_div, div_eq_div_iff (by positivity) (by positivity)]
      rw [mul_assoc, ← pow_add]
      rw [show 23 - l + (l + 2) = 25 by omega]
    rw [e1, e2]
  rw [harg]
  have hfr : (0 : ℚ) ≤ (N : ℚ) / 2 ^ (l + 2) := by positivity
  have hhalf : (N : ℚ) / 2 ^ (l + 2) < 1 / 2 := by
    rw [div_lt_div_iff (by positivity) (by norm_num)]
    have : (N : ℚ) < ((2 ^ (l + 1) : ℕ) : ℚ) := by exact_mod_cast hl2
    calc (N : ℚ) * 2 < ((2 ^ (l + 1) : ℕ) : ℚ) * 2 := by linarith
      _ = 1 * 2 ^ (l + 2) := by push_cast; ring
  rw [rne_int_add_lt_half _ _ hfr hhalf]
  rw [show ((l : ℤ) - 23) = -(((23 - l : ℕ)) : ℤ) by push_cast; omega, zpow_neg, zpow_natCast]
  have hcast : (((N * 2 ^ (23 - l) : ℕ) : ℤ) : ℚ) = (N : ℚ) * 2 ^ (23 - l) := by
    push_cast
    ring
  rw [hcast, mul_assoc, mul_inv_cancel₀ (by positivity), mul_one]

/-- Truncating-cast of an exactly represented natural. -/
theorem trunc_as_u32_nat (n : ℕ) (h : n < 2 ^ 32 - 1) : trunc_as_u32 ((n : ℕ) : ℚ) = n := by
  unfold trunc_as_u32
  rw [Int.floor_natCast, Int.toNat_natCast]
  exact min_eq_left (by omega)

/-- The downscale target for a 3× model at target 2×: the f32 chain
truncates to exactly `W·2` for inputs of width `W·3` (the rounding of `2/3`
is slightly high, and the product rounds back onto `W·2`). -/
theorem resize_target_dim_32 (W : ℕ) (h1 : 0 < W) (h2 : W ≤ 2 ^ 20) :
    resize_target_dim (W * 3) 2 3 = W * 2 := by
  unfold resize_target_dim
  have hr2 : roundF32 ((2 : ℕ) : ℚ) = ((2 : ℕ) : ℚ) :=
    roundF32_nat 2 (by norm_num) (by norm_num)
  have hr3 : roundF32 ((3 : ℕ) : ℚ) = ((3 : ℕ) : ℚ) :=
    roundF32_nat 3 (by norm_num) (by norm_num)
  have hrw : roundF32 ((W * 3 : ℕ) : ℚ) = ((W * 3 : ℕ) : ℚ) :=
    roundF32_nat (W * 3) (by omega) (by omega)
  rw [hr2, hr3, hrw]
  have hdiv : (((2 : ℕ) : ℚ)) / (((3 : ℕ) : ℚ)) = (2 / 3 : ℚ) := by norm_num
  rw [hdiv, roundF32_two_thirds]
  have hprod : ((W * 3 : ℕ) : ℚ) * (11184811 / 2 ^ 24) =
      ((W * 2 : ℕ) : ℚ) * (2 ^ 25 + 1) / 2 ^ 25 := by
    push_cast
    ring
  rw [hprod, roundF32_near_above (W * 2) (by omega) (by omega)]
  exact trunc_as_u32_nat (W * 2) (by omega)

/-- The downscale target for a 4× model at target 2×: `2/4` is exactly
`2^-1`, so the chain is exact and truncates to `W·2`. -/
theorem resize_target_dim_42 (W : ℕ) (h1 : 0 < W) (h2 : W ≤ 2 ^ 20) :
    resize_target_dim (W * 4) 2 4 = W * 2 := by
  unfold resize_target_dim
  have hr2 : roundF32 ((2 : ℕ) : ℚ) = ((2 : ℕ) : ℚ) :=
    roundF32_nat 2 (by norm_num) (by norm_num)
  have hr4 : roundF32 ((4 : ℕ) : ℚ) = ((4 : ℕ) : ℚ) :=
    roundF32_nat 4 (by norm_num) (by norm_num)
  have hrw : roundF32 ((W * 4 : ℕ) : ℚ) = ((W * 4 : ℕ) : ℚ) :=
    roundF32_nat (W * 4) (by omega) (by omega)
  rw [hr2, hr4, hrw]
  have hdiv : (((2 : ℕ) : ℚ)) / (((4 : ℕ) : ℚ)) = (1 : ℚ) * (2 : ℚ) ^ (-1 : ℤ) := by
    rw [zpow_neg, zpow_one]
    norm_num
  rw [hdiv, show ((1 : ℚ) * (2 : ℚ) ^ (-1 : ℤ)) = (((1 : ℕ) : ℚ) * (2 : ℚ) ^ (-1 : ℤ)) by
    norm_num]
  rw [roundF32_rep 1 (-1) (by norm_num) (by norm_num)]
  have hprod : ((W * 4 : ℕ) : ℚ) * (((1 : ℕ) : ℚ) * (2 : ℚ) ^ (-1 : ℤ)) =
      ((W * 2 : ℕ) : ℚ) := by
    rw [zpow_neg, zpow_one]
    push_cast
    ring
  rw [hprod, roundF32_nat (W * 2) (by omega) (by omega)]
  exact trunc_as_u32_nat (W * 2) (by omega)

/-- The downscale target for a 4× model at target 3×: `3/4` is exactly
`3·2^-2`, so the chain is exact and truncates to `W·3`. -/
theorem resize_target_dim_43 (W : ℕ) (h1 : 0 < W) (h2 : W ≤ 2 ^ 20) :
    resize_target_dim (W * 4) 3 4 = W * 3 := by
  unfold resize_target_dim
  have hr3 : roundF32 ((3 : ℕ) : ℚ) = ((3 : ℕ) : ℚ) :=
    roundF32_nat 3 (by norm_num) (by norm_num)
  have hr4 : roundF32 ((4 : ℕ) : ℚ) = ((4 : ℕ) : ℚ) :=
    roundF32_nat 4 (by norm_num) (by norm_num)
  have hrw : roundF32 ((W * 4 : ℕ) : ℚ) = ((W * 4 : ℕ) : ℚ) :=
    roundF32_nat (W * 4) (by omega) (by omega)
  rw [hr3, hr4, hrw]
  have hdiv : (((3 : ℕ) : ℚ)) / (((4 : ℕ) : ℚ)) = (((3 : ℕ) : ℚ) * (2 : ℚ) ^ (-2 : ℤ)) := by
    rw [show ((-2 : ℤ)) = -((2 : ℕ) : ℤ) by norm_num, zpow_neg, zpow_natCast]
    norm_num
  rw [hdiv, roundF32_rep 3 (-2) (by norm_num) (by norm_num)]
  have hprod : ((W * 4 : ℕ) : ℚ) * (((3 : ℕ) : ℚ) * (2 : ℚ) ^ (-2 : ℤ)) =
      ((W * 3 : ℕ) : ℚ) := by
    rw [show ((-2 : ℤ)) = -((2 : ℕ) : ℤ) by norm_num, zpow_neg, zpow_natCast]
    push_cast
    ring
  rw [hprod, roundF32_nat (W * 3) (by omega) (by omega)]
  exact trunc_as_u32_nat (W * 3) (by omega)

/-- Dimensions produced by the three scale-reconciliation branches of the
orchestrator, for the realizable scales 2/3/4 and image sides up to 2^20. -/
theorem scale_reconciliation_dims (cfg : TilingConfig)
    (W H model_scale target_scale avail : ℕ) (pix : ℕ → ℕ → Rgb)
    (infer : List Image → Except AppError (List Image)) (r : Image)
    (hm : model_scale = 2 ∨ model_scale = 3 ∨ model_scale = 4)
    (ht : target_scale = 2 ∨ target_scale = 3 ∨ target_scale = 4)
    (hW1 : 0 < W) (hW2 : W ≤ 2 ^ 20) (hH1 : 0 < H) (hH2 : H ≤ 2 ^ 20)
    (h : (if model_scale = target_scale then
        process_tiled ⟨W, H, pix⟩ cfg model_scale avail infer
      else if target_scale < model_scale then
        match process_tiled ⟨W, H, pix⟩ cfg model_scale avail infer with
        | .error e => .error e
        | .ok upscaled =>
          resize_image upscaled
            (resize_target_dim upscaled.width target_scale model_scale)
            (resize_target_dim upscaled.height target_scale model_scale)
      else
        match process_tiled ⟨W, H, pix⟩ cfg model_scale avail infer with
        | .error e => .error e
        | .ok pass1 => process_tiled pass1 cfg model_scale avail infer) = .ok r) :
    (r.width, r.height) =
      if model_scale < target_scale then
        (W * (model_scale * model_scale), H * (model_scale * model_scale))
      else (W * target_scale, H * target_scale) := by
  have hm4 : model_scale ≤ 4 ∧ 2 ≤ model_scale := by rcases hm with h' | h' | h' <;> omega
  have ht4 : target_scale ≤ 4 ∧ 2 ≤ target_scale := by rcases ht with h' | h' | h' <;> omega
  have hWm : W * model_scale ≤ 2 ^ 22 := by
    calc W * model_scale ≤ 2 ^ 20 * 4 := Nat.mul_le_mul hW2 hm4.1
      _ = 2 ^ 22 := by norm_num
  have hHm : H * model_scale ≤ 2 ^ 22 := by
    calc H * model_scale ≤ 2 ^ 20 * 4 := Nat.mul_le_mul hH2 hm4.1
      _ = 2 ^ 22 := by norm_num
  by_cases hmt : model_scale = target_scale
  · rw [if_pos hmt] at h
    obtain ⟨hw, hh⟩ := process_tiled_ok_dims _ _ _ _ _ _ h
    replace hw : r.width = W * model_scale % 2 ^ 32 := hw
    replace hh : r.height = H * model_scale % 2 ^ 32 := hh
    rw [if_neg (by omega : ¬ model_scale < target_scale)]
    rw [hw, hh]
    simp only [Nat.mod_eq_of_lt (by omega : W * model_scale < 2 ^ 32),
      Nat.mod_eq_of_lt (by omega : H * model_scale < 2 ^ 32)]
    rw [hmt]
  · by_cases htm : target_scale < model_scale
    · rw [if_neg hmt, if_pos htm] at h
      cases hp : process_tiled ⟨W, H, pix⟩ cfg model_scale avail infer with
      | error e => rw [hp] at h; cases h
      | ok up =>
        rw [hp] at h
        obtain ⟨hw, hh⟩ := process_tiled_ok_dims _ _ _ _ _ _ hp
        replace hw : up.width = W * model_scale % 2 ^ 32 := hw
        replace hh : up.height = H * model_scale % 2 ^ 32 := hh
        have hwv : up.width = W * model_scale := by
          rw [hw]; exact Nat.mod_eq_of_lt (by omega)
        have hhv : up.height = H * model_scale := by
          rw [hh]; exact Nat.mod_eq_of_lt (by omega)
        rw [if_neg (by omega : ¬ model_scale < target_scale)]
        have htw : resize_target_dim up.width target_scale model_scale = W * target_scale := by
          rw [hwv]
          rcases hm with rfl | rfl | rfl <;> rcases ht with rfl | rfl | rfl
          · omega
          · omega
          · omega
          · exact resize_target_dim_32 W hW1 hW2
          · omega
          · omega
          · exact resize_target_dim_42 W hW1 hW2
          · exact resize_target_dim_43 W hW1 hW2
          · omega
        have hth : resize_target_dim up.height target_scale model_scale = H * target_scale := by
          rw [hhv]
          rcases hm with rfl | rfl | rfl <;> rcases ht with rfl | rfl | rfl
          · omega
          · omega
          · omega
          · exact resize_target_dim_32 H hH1 hH2
          · omega
          · omega
          · exact resize_target_dim_42 H hH1 hH2
          · exact resize_target_dim_43 H hH1 hH2
          · omega
        replace h : resize_image up
            (resize_target_dim up.width target_scale model_scale)
            (resize_target_dim up.height target_scale model_scale) = .ok r := h
        unfold resize_image at h
        rw [if_neg (by
          push_neg
          refine ⟨?_, ?_, ?_, ?_⟩
          · rw [hwv]; exact Nat.mul_ne_zero (by omega) (by omega)
          · rw [hhv]; exact Nat.mul_ne_zero (by omega) (by omega)
          · rw [htw]; exact Nat.mul_ne_zero (by omega) (by omega)
          · rw [hth]; exact Nat.mul_ne_zero (by omega) (by omega))] at h
        cases h
        simp only [htw, hth]
    · have hlt : model_scale < target_scale := by omega
      rw [if_neg hmt, if_neg htm] at h
      cases hp : process_tiled ⟨W, H, pix⟩ cfg model_scale avail infer with
      | error e => rw [hp] at h; cases h
      | ok p1 =>
        rw [hp] at h
        replace h : process_tiled p1 cfg model_scale avail infer = .ok r := h
        obtain ⟨hw1, hh1⟩ := process_tiled_ok_dims _ _ _ _ _ _ hp
        obtain ⟨hw2, hh2⟩ := process_tiled_ok_dims _ _ _ _ _ _ h
        replace hw1 : p1.width = W * model_scale % 2 ^ 32 := hw1
        replace hh1 : p1.height = H * model_scale % 2 ^ 32 := hh1
        rw [if_pos hlt]
        rw [hw2, hh2, hw1, hh1]
        rw [Nat.mod_eq_of_lt (by omega : W * model_scale < 2 ^ 32),
          Nat.mod_eq_of_lt (by omega : H * model_scale < 2 ^ 32)]
        have hWmm : W * model_scale * model_scale ≤ 2 ^ 24 := by
          calc W * model_scale * model_scale ≤ 2 ^ 22 * 4 :=
                Nat.mul_le_mul hWm hm4.1
            _ = 2 ^ 24 := by norm_num
        have hHmm : H * model_scale * model_scale ≤ 2 ^ 24 := by
          calc H * model_scale * model_scale ≤ 2 ^ 22 * 4 :=
                Nat.mul_le_mul hHm hm4.1
            _ = 2 ^ 24 := by norm_num
        rw [Nat.mod_eq_of_lt (by omega : W * model_scale * model_scale < 2 ^ 32),
          Nat.mod_eq_of_lt (by omega : H * model_scale * model_scale < 2 ^ 32)]
        rw [Nat.mul_assoc, Nat.mul_assoc]

/-- C1 (counterexample): the dimension law fails in the double-upscale
case: a 1×1 image processed with a 2× model at target scale 3 comes back
4×4 (two passes at 2×), not 3×3 = `W·t × H·t` as the claim requires. -/
theorem dimension_law_counterexample :
    (process_with_session 2 64 none none 3 none ⟨1, 1, fun _ _ => (0, 0, 0)⟩
        (10 ^ 9) (fun b => .ok b)).1.map (fun i => (i.width, i.height)) =
      .ok (4, 4) ∧ (4, 4) ≠ (1 * 3, 1 * 3) := by
  exact ⟨rfl, by decide⟩

/-- C1 (amended): for realizable scales `m, t ∈ {2,3,4}` and image sides up
to `2^20`, a successful orchestrator run returns dimensions `W·t × H·t`
when `m = t` (single pass) and when `m > t` (tiled pass then Catmull-Rom
downscale, whose f32 target computation lands exactly on `W·t`); when
`m < t` it returns `W·m² × H·m²` (two passes at `m`), which equals
`W·t × H·t` only when `m² = t`. -/
theorem upscale_dimension_law (W H model_scale target_scale rec_tile : ℕ)
    (fixed_input_size is_static_batch : Option ℕ) (req_batch : Option ℕ)
    (pix : ℕ → ℕ → Rgb) (avail : ℕ)
    (infer : List Image → Except AppError (List Image)) (r : Image)
    (hm : model_scale = 2 ∨ model_scale = 3 ∨ model_scale = 4)
    (ht : target_scale = 2 ∨ target_scale = 3 ∨ target_scale = 4)
    (hW1 : 0 < W) (hW2 : W ≤ 2 ^ 20) (hH1 : 0 < H) (hH2 : H ≤ 2 ^ 20)
    (h : (process_with_session model_scale rec_tile fixed_input_size
      is_static_batch target_scale req_batch ⟨W, H, pix⟩ avail infer).1 = .ok r) :
    (r.width, r.height) =
      if model_scale < target_scale then
        (W * (model_scale * model_scale), H * (model_scale * model_scale))
      else (W * target_scale, H * target_scale) := by
  simp only [process_with_session] at h
  cases fixed_input_size with
  | none =>
    exact scale_reconciliation_dims _ W H _ _ _ pix infer r hm ht hW1 hW2 hH1 hH2 h
  | some fs =>
    dsimp only at h
    by_cases hfs : fs ≤ 32 * 2
    · rw [if_pos hfs] at h
      cases h
    · rw [if_neg hfs] at h
      exact scale_reconciliation_dims _ W H _ _ _ pix infer r hm ht hW1 hW2 hH1 hH2 h

/-- Witness for the amended C1 theorem: a 1×1 image with a 2× model at
target 2× comes back 2×2. -/
theorem upscale_dimension_law_witness :
    ∃ r : Image,
      (process_with_session 2 64 none none 2 none ⟨1, 1, fun _ _ => (0, 0, 0)⟩
        (10 ^ 9) (fun b => .ok b)).1 = .ok r ∧
      (r.width, r.height) =
        (if (2 : ℕ) < 2 then (1 * (2 * 2), 1 * (2 * 2)) else (1 * 2, 1 * 2)) := by
  have hdims : (process_with_session 2 64 none none 2 none
      ⟨1, 1, fun _ _ => (0, 0, 0)⟩ (10 ^ 9) (fun b => .ok b)).1.map
        (fun i => (i.width, i.height)) = .ok (2, 2) := rfl
  obtain ⟨r, hr⟩ : ∃ r, (process_with_session 2 64 none none 2 none
      ⟨1, 1, fun _ _ => (0, 0, 0)⟩ (10 ^ 9) (fun b => .ok b)).1 = .ok r := by
    cases hres : (process_with_session 2 64 none none 2 none
        ⟨1, 1, fun _ _ => (0, 0, 0)⟩ (10 ^ 9) (fun b => .ok b)).1 with
    | ok v => exact ⟨v, rfl⟩
    | error e => rw [hres] at hdims; cases hdims
  exact ⟨r, hr,
    upscale_dimension_law 1 1 2 2 64 none none none (fun _ _ => (0, 0, 0))
      (10 ^ 9) (fun b => .ok b) r (Or.inl rfl) (Or.inl rfl) (by norm_num)
      (by norm_num) (by norm_num) (by norm_num) hr⟩
